import Mathlib

/-!
Verification of the financial simulation core of the debt-vs-investment
calculator (`codeFile.py`).  The helper functions `calculate_payoff_months`,
`remaining_balance`, `future_value`, `simulate_debt_payoffs` and
`simulate_finances` are embedded below as executable Lean functions over ℚ
(the Python code computes with IEEE floats; the embedding uses exact rational
arithmetic for the same expressions).  Python `while`/`for` loops are encoded
as structurally recursive functions on an explicit counter, and the Python
value `None` is encoded with `Option`.
-/

set_option maxHeartbeats 1000000

/-- A debt record as entered in the sidebar form:
`Amount Owed`, `Interest Rate` (percent per year), `Minimum Payment`. -/
structure Debt where
  amountOwed : ℚ
  interestRate : ℚ
  minimumPayment : ℚ
deriving DecidableEq

instance : Inhabited Debt := ⟨⟨0, 0, 0⟩⟩

/-- An explicit investment record: `Current Amount`, `Monthly Contribution`,
`Return Rate` (percent per year). -/
structure Investment where
  currentAmount : ℚ
  monthlyContribution : ℚ
  returnRate : ℚ
deriving DecidableEq

instance : Inhabited Investment := ⟨⟨0, 0, 0⟩⟩

/-- Per-month rate `annual_interest_rate / 100 / 12`, used throughout the source. -/
def monthlyRate (annual : ℚ) : ℚ := annual / 100 / 12

/-- The `while balance > 0 and months < 1000` loop of `calculate_payoff_months`.
`fuel` is only a structural-recursion counter; it is called with `fuel = 1000`
and `months = 0`, so the loop's own `months < 1000` test always stops the
recursion no later than the fuel does. -/
def payoffLoop (r K : ℚ) : ℕ → ℚ → ℕ → ℕ
  | 0, _, months => months
  | fuel + 1, bal, months =>
    if 0 < bal ∧ months < 1000 then payoffLoop r K fuel (bal * (1 + r) - K) (months + 1)
    else months

/-- Embedding of `calculate_payoff_months(amount, annual_interest_rate, payment)`:
returns `none` for Python's `None` when the payment does not exceed the first
month's interest, otherwise runs the capped simulation loop. -/
def calculate_payoff_months (amount annual_interest_rate payment : ℚ) : Option ℕ :=
  let monthly_rate := monthlyRate annual_interest_rate
  if payment ≤ amount * monthly_rate then none
  else some (payoffLoop monthly_rate payment 1000 amount 0)

/-- The `for m in range(months)` loop of `remaining_balance`: at each period it
first tests the `payment <= balance * monthly_rate` break, then accrues
interest and subtracts the payment, returning `0` the moment the balance is
`≤ 0`; when the horizon is exhausted it returns `max(balance, 0)`. -/
def remainingLoop (r K : ℚ) : ℕ → ℚ → ℚ
  | 0, bal => max bal 0
  | m + 1, bal =>
    if K ≤ bal * r then max bal 0
    else
      let b := bal * (1 + r) - K
      if b ≤ 0 then 0 else remainingLoop r K m b

/-- Embedding of `remaining_balance(amount, annual_interest_rate, payment, months)`. -/
def remaining_balance (amount annual_interest_rate payment : ℚ) (months : ℕ) : ℚ :=
  remainingLoop (monthlyRate annual_interest_rate) payment months amount

/-- Embedding of `future_value(current_amount, monthly_contribution, annual_return_rate, months)`:
closed-form compound growth, with the explicit `r = 0` branch. -/
def future_value (current_amount monthly_contribution annual_return_rate : ℚ)
    (months : ℕ) : ℚ :=
  let r := monthlyRate annual_return_rate
  if r ≠ 0 then
    current_amount * (1 + r) ^ months +
      monthly_contribution * (((1 + r) ^ months - 1) / r)
  else current_amount + monthly_contribution * months

/-- The balance of one debt after `k` raw interest-then-payment steps
`balance := balance * (1 + r) - K`, starting from `bal` (no clamping);
the path traced by the loops above. -/
def balSeq (r K bal : ℚ) : ℕ → ℚ
  | 0 => bal
  | k + 1 => balSeq r K bal k * (1 + r) - K

/-- The `Minimum Payment` of debt `i` (Python list indexing `debt_min_payments[i]`). -/
def minOf (debts : List Debt) (i : ℕ) : ℚ := (debts.getD i default).minimumPayment

/-- Annual `Interest Rate` of debt `i` (the sorting key `debts[i]["Interest Rate"]`). -/
def rateOf (debts : List Debt) (i : ℕ) : ℚ := (debts.getD i default).interestRate

/-- Monthly rate of debt `i` (`debt_interest_rates[i]`). -/
def mrateOf (debts : List Debt) (i : ℕ) : ℚ := monthlyRate (rateOf debts i)

/-- Embedding of `active_indices = [i for i, bal in enumerate(debt_balances) if bal > 0]`. -/
def activeIndices (balances : List ℚ) : List ℕ :=
  (List.range balances.length).filter (fun i => decide (0 < balances.getD i 0))

/-- Embedding of `total_min = sum(debt_min_payments[i] for i in active_indices)`. -/
def totalMin (debts : List Debt) (balances : List ℚ) : ℚ :=
  ((activeIndices balances).map (fun i => minOf debts i)).sum

/-- The order realised by Python's stable `sorted(active, key=interest rate,
reverse=True)`: `i` comes before `j` iff `i`'s annual rate is larger, with
ties broken by the original (ascending index) order. -/
def rateOrder (debts : List Debt) (i j : ℕ) : Prop :=
  rateOf debts j < rateOf debts i ∨ (rateOf debts i = rateOf debts j ∧ i ≤ j)

instance (debts : List Debt) : DecidableRel (rateOrder debts) := fun i j => by
  unfold rateOrder; infer_instance

/-- Embedding of `sorted_active = sorted(active_indices, key=interest rate, reverse=True)`.
A stable descending sort equals sorting by the total order `rateOrder`. -/
def sortedActive (debts : List Debt) (balances : List ℚ) : List ℕ :=
  (activeIndices balances).insertionSort (rateOrder debts)

/-- The `for i in sorted_active` loop distributing `extra`, including the
`if extra <= 0: break` early exit. -/
def allocExtra (debts : List Debt) (balances : List ℚ) :
    List ℕ → List ℚ → ℚ → List ℚ × ℚ
  | [], pays, extra => (pays, extra)
  | i :: rest, pays, extra =>
    if extra ≤ 0 then (pays, extra)
    else
      let payment_needed := balances.getD i 0 * (1 + mrateOf debts i)
      let extra_needed := max (payment_needed - pays.getD i 0) 0
      let extra_payment := min extra extra_needed
      allocExtra debts balances rest (pays.set i (pays.getD i 0 + extra_payment))
        (extra - extra_payment)

/-- The per-month payment allocation block shared verbatim by
`simulate_debt_payoffs` and `simulate_finances` (the source comment in the
latter says "using same logic as in simulate_debt_payoffs"): zero payments
when no debt is active; pro-rata scaled minimums when the pool is short;
otherwise minimums first and the remainder greedily by descending rate. -/
def computePayments (debts : List Debt) (balances : List ℚ) (pool : ℚ) : List ℚ :=
  let act := activeIndices balances
  let total_min := totalMin debts balances
  let pays0 := List.replicate balances.length (0 : ℚ)
  if act.isEmpty then pays0
  else if pool < total_min then
    act.foldl (fun pays i => pays.set i (minOf debts i * (pool / total_min))) pays0
  else
    let pays1 := act.foldl (fun pays i => pays.set i (minOf debts i)) pays0
    (allocExtra debts balances (sortedActive debts balances) pays1 (pool - total_min)).1

/-- The balance-update loop shared by both simulation functions:
`new_balance = balance*(1+r) - payment`, clamped at `0`, applied only to
debts with positive balance. -/
def updateBalances (debts : List Debt) (balances payments : List ℚ) : List ℚ :=
  (List.range balances.length).map (fun i =>
    let b := balances.getD i 0
    if 0 < b then max (b * (1 + mrateOf debts i) - payments.getD i 0) 0 else b)

/-- The payoff-month bookkeeping of `simulate_debt_payoffs`: when an active
debt's updated balance is exactly `0` and no payoff month was recorded yet,
record the current month `m`. -/
def updatePayoffs (debts : List Debt) (m : ℕ) (balances payments : List ℚ)
    (poffs : List (Option ℕ)) : List (Option ℕ) :=
  (List.range balances.length).map (fun i =>
    let b := balances.getD i 0
    if 0 < b then
      let nb := max (b * (1 + mrateOf debts i) - payments.getD i 0) 0
      if nb = 0 ∧ poffs.getD i none = none then some m else poffs.getD i none
    else poffs.getD i none)

/-- The `for m in range(1, max_months+1)` loop of `simulate_debt_payoffs`,
with its `if not active_indices: break` early exit.  `fuel` counts the
months still to simulate; `m` is the current month number. -/
def payoffSimLoop (debts : List Debt) (alloc : ℚ) :
    ℕ → ℕ → List ℚ → List (Option ℕ) → List ℚ × List (Option ℕ)
  | 0, _, bals, poffs => (bals, poffs)
  | fuel + 1, m, bals, poffs =>
    if (activeIndices bals).isEmpty then (bals, poffs)
    else
      let payments := computePayments debts bals alloc
      let bals' := updateBalances debts bals payments
      let poffs' := updatePayoffs debts m bals payments poffs
      payoffSimLoop debts alloc fuel (m + 1) bals' poffs'

/-- Embedding of `simulate_debt_payoffs(debts, debt_allocation, max_months)`: per-debt payoff
month; `none` stands for the final `"N/A"` fill-in of entries never recorded. -/
def simulate_debt_payoffs (debts : List Debt) (debt_allocation : ℚ)
    (max_months : ℕ := 120) : List (Option ℕ) :=
  (payoffSimLoop debts debt_allocation max_months 1
      (debts.map (fun d => d.amountOwed))
      (List.replicate debts.length none)).2

/-- One appended row of the `simulate_finances` DataFrame. -/
structure Row where
  month : ℕ
  netWorth : ℚ
  totalDebt : ℚ
  totalInvestments : ℚ
  defaultInvestment : ℚ
  explicitInvestments : ℚ
  debtPayments : ℚ
deriving DecidableEq

instance : Inhabited Row := ⟨⟨0, 0, 0, 0, 0, 0, 0⟩⟩

/-- The body of the `for m in range(horizon_months + 1)` loop of
`simulate_finances`: allocate payments, update debt balances, update the
default investment (only for `m > 0`), evaluate the explicit investments by
closed form, and emit the row. -/
def simRow (debts : List Debt) (invs : List Investment)
    (monthly_budget debt_allocation default_return_rate : ℚ)
    (m : ℕ) (balances : List ℚ) (default_balance : ℚ) : Row × List ℚ × ℚ :=
  let payments := computePayments debts balances debt_allocation
  let balances' := updateBalances debts balances payments
  let total_debt := balances'.sum
  let investment_allocation := monthly_budget - debt_allocation
  let default_balance' :=
    if 0 < m then default_balance * (1 + monthlyRate default_return_rate) + investment_allocation
    else default_balance
  let explicit_total :=
    (invs.map (fun inv =>
      future_value inv.currentAmount inv.monthlyContribution inv.returnRate m)).sum
  let total_investments := default_balance' + explicit_total
  ({ month := m
     netWorth := total_investments - total_debt
     totalDebt := -total_debt
     totalInvestments := total_investments
     defaultInvestment := default_balance'
     explicitInvestments := explicit_total
     debtPayments := payments.sum }, balances', default_balance')

/-- The month loop of `simulate_finances`; `fuel` is the number of rows still
to produce, `m` the current month. -/
def simLoop (debts : List Debt) (invs : List Investment)
    (budget alloc dret : ℚ) : ℕ → ℕ → List ℚ → ℚ → List Row
  | 0, _, _, _ => []
  | fuel + 1, m, bals, defBal =>
    let s := simRow debts invs budget alloc dret m bals defBal
    s.1 :: simLoop debts invs budget alloc dret fuel (m + 1) s.2.1 s.2.2

/-- Embedding of `simulate_finances(debts, explicit_investments, monthly_budget,
debt_allocation, horizon_months, default_return_rate)`: the list of rows for
months `0 .. horizon_months`. -/
def simulate_finances (debts : List Debt) (explicit_investments : List Investment)
    (monthly_budget debt_allocation : ℚ) (horizon_months : ℕ)
    (default_return_rate : ℚ := 7) : List Row :=
  simLoop debts explicit_investments monthly_budget debt_allocation default_return_rate
    (horizon_months + 1) 0 (debts.map (fun d => d.amountOwed)) 0

/-- The remainder distribution exactly as the spec words it (§4.3): walk the
active debts in descending interest-rate order; each receives
`min(extra, balance*(1+monthlyRate) - already assigned)` (never negative, so
overpayment beyond full payoff is disallowed), and the leftover cascades to
the next debt — with no early exit. -/
def specGive (debts : List Debt) (balances : List ℚ) :
    List ℕ → List ℚ → ℚ → List ℚ × ℚ
  | [], pays, extra => (pays, extra)
  | i :: rest, pays, extra =>
    let cap := max (balances.getD i 0 * (1 + mrateOf debts i) - pays.getD i 0) 0
    let give := min extra cap
    specGive debts balances rest (pays.set i (pays.getD i 0 + give)) (extra - give)

/-- The full §4.3 else-branch as the spec words it: minimums first, then the
remainder via `specGive` over the descending-rate order. -/
def specAllocate (debts : List Debt) (balances : List ℚ) (pool : ℚ) : List ℚ :=
  let act := activeIndices balances
  let pays1 := act.foldl (fun pays i => pays.set i (minOf debts i))
    (List.replicate balances.length (0:ℚ))
  (specGive debts balances (sortedActive debts balances) pays1
    (pool - totalMin debts balances)).1

instance (debts : List Debt) : IsTotal ℕ (rateOrder debts) := by
  constructor
  intro i j
  rcases lt_trichotomy (rateOf debts i) (rateOf debts j) with h | h | h
  · exact Or.inr (Or.inl h)
  · rcases le_total i j with hij | hij
    · exact Or.inl (Or.inr ⟨h, hij⟩)
    · exact Or.inr (Or.inr ⟨h.symm, hij⟩)
  · exact Or.inl (Or.inl h)

instance (debts : List Debt) : IsTrans ℕ (rateOrder debts) := by
  constructor
  intro i j k hij hjk
  rcases hij with h1 | ⟨h1, h1'⟩ <;> rcases hjk with h2 | ⟨h2, h2'⟩
  · exact Or.inl (lt_trans h2 h1)
  · exact Or.inl (h2 ▸ h1)
  · exact Or.inl (h1 ▸ h2)
  · exact Or.inr ⟨h1.trans h2, h1'.trans h2'⟩

instance (debts : List Debt) : IsAntisymm ℕ (rateOrder debts) := by
  constructor
  intro i j hij hji
  rcases hij with h1 | ⟨h1, h1'⟩
  · rcases hji with h2 | ⟨h2, _⟩
    · exact absurd (lt_trans h1 h2) (lt_irrefl _)
    · exact absurd h1 (h2 ▸ lt_irrefl _)
  · rcases hji with h2 | ⟨_, h2'⟩
    · exact absurd h2 (h1 ▸ lt_irrefl _)
    · omega

/-- The debt-balance state reached after `k` allocation/update months of
`simulate_finances` (the carried, path-dependent part of the driver). -/
def debtStateLoop (debts : List Debt) (alloc : ℚ) : ℕ → List ℚ → List ℚ
  | 0, bals => bals
  | k + 1, bals => debtStateLoop debts alloc k
      (updateBalances debts bals (computePayments debts bals alloc))


/-! ## Basic arithmetic facts about the embedding -/

lemma monthlyRate_eq (R : ℚ) : monthlyRate R = R / 1200 := by
  unfold monthlyRate; ring

lemma mul_monthlyRate (P R : ℚ) : P * monthlyRate R = P * R / 1200 := by
  unfold monthlyRate; ring

lemma monthlyRate_nonneg {R : ℚ} (hR : 0 ≤ R) : 0 ≤ monthlyRate R := by
  rw [monthlyRate_eq]; positivity

/-! ## Lemmas about the raw balance path `balSeq` -/

lemma balSeq_shift (r K bal : ℚ) : ∀ k : ℕ,
    balSeq r K bal (k + 1) = balSeq r K (bal * (1 + r) - K) k
  | 0 => rfl
  | k + 1 => by
    show balSeq r K bal (k + 1) * (1 + r) - K = _
    rw [balSeq_shift r K bal k]
    rfl

lemma balSeq_le_init (r K P : ℚ) (hr : 0 ≤ r) (hK : P * r < K) :
    ∀ i, balSeq r K P i ≤ P
  | 0 => le_refl P
  | i + 1 => by
    have ih := balSeq_le_init r K P hr hK i
    show balSeq r K P i * (1 + r) - K ≤ P
    nlinarith [mul_le_mul_of_nonneg_right ih (by linarith : (0:ℚ) ≤ 1 + r)]

lemma balSeq_no_break (r K P : ℚ) (hr : 0 ≤ r) (hK : P * r < K) (i : ℕ) :
    balSeq r K P i * r < K :=
  lt_of_le_of_lt (mul_le_mul_of_nonneg_right (balSeq_le_init r K P hr hK i) hr) hK

/-! ## Lemmas about the payoff loop -/

lemma payoffLoop_eq (r K : ℚ) : ∀ (j : ℕ) (m : ℕ) (bal : ℚ), m + j ≤ 1000 →
    (∀ i < j, 0 < balSeq r K bal i) → balSeq r K bal j ≤ 0 →
    payoffLoop r K (1000 - m) bal m = m + j
  | 0, m, bal => by
    intro hm _ hz
    have hb : ¬ (0 < bal) := not_lt.mpr hz
    cases hf : 1000 - m with
    | zero => simp [payoffLoop]
    | succ f =>
      simp only [payoffLoop, Nat.add_zero]
      rw [if_neg]
      rintro ⟨hb', _⟩
      exact hb hb'
  | j + 1, m, bal => by
    intro hm h0 hz
    have hmlt : m < 1000 := by omega
    have hfuel : 1000 - m = (1000 - (m + 1)) + 1 := by omega
    rw [hfuel]
    simp only [payoffLoop]
    rw [if_pos ⟨h0 0 (Nat.succ_pos j), hmlt⟩]
    have := payoffLoop_eq r K j (m + 1) (bal * (1 + r) - K) (by omega)
      (fun i hi => by rw [← balSeq_shift]; exact h0 (i + 1) (by omega))
      (by rw [← balSeq_shift]; exact hz)
    rw [this]
    omega

lemma calculate_payoff_eq (P R K : ℚ) (j : ℕ)
    (hK : P * monthlyRate R < K) (hj : j ≤ 1000)
    (h0 : ∀ i < j, 0 < balSeq (monthlyRate R) K P i)
    (hz : balSeq (monthlyRate R) K P j ≤ 0) :
    calculate_payoff_months P R K = some j := by
  have hguard : ¬ (K ≤ P * monthlyRate R) := not_le.mpr hK
  have hloop := payoffLoop_eq (monthlyRate R) K j 0 P (by omega) h0 hz
  simp only [calculate_payoff_months, if_neg hguard, Option.some.injEq]
  simpa using hloop

/-! ## Lemmas about the remaining-balance loop -/

lemma remainingLoop_nonneg (r K : ℚ) : ∀ (m : ℕ) (bal : ℚ),
    0 ≤ remainingLoop r K m bal
  | 0, bal => le_max_right bal 0
  | m + 1, bal => by
    simp only [remainingLoop]
    split
    · exact le_max_right bal 0
    · split
      · exact le_refl 0
      · exact remainingLoop_nonneg r K m _

lemma remainingLoop_stuck (r K : ℚ) : ∀ (j m : ℕ) (bal : ℚ), j ≤ m →
    (∀ i < j, balSeq r K bal i * r < K ∧ 0 < balSeq r K bal (i + 1)) →
    K ≤ balSeq r K bal j * r →
    remainingLoop r K m bal = max (balSeq r K bal j) 0
  | 0, m, bal => by
    intro _ _ hstop
    have hstop' : K ≤ bal * r := hstop
    cases m with
    | zero => rfl
    | succ m' => simp only [remainingLoop, if_pos hstop']; rfl
  | j + 1, m, bal => by
    intro hjm hrun hstop
    obtain ⟨hbr, hpos⟩ := hrun 0 (Nat.succ_pos j)
    have hbr' : ¬ (K ≤ bal * r) := not_le.mpr hbr
    cases m with
    | zero => omega
    | succ m' =>
      simp only [remainingLoop]
      rw [if_neg hbr']
      have hb1 : ¬ (bal * (1 + r) - K ≤ 0) := by
        have := hpos
        rw [balSeq_shift] at this
        exact not_le.mpr this
      rw [if_neg hb1]
      have := remainingLoop_stuck r K j m' (bal * (1 + r) - K) (by omega)
        (fun i hi => by
          constructor
          · rw [← balSeq_shift]; exact (hrun (i + 1) (by omega)).1
          · rw [← balSeq_shift]; exact (hrun (i + 1) (by omega)).2)
        (by rw [← balSeq_shift]; exact hstop)
      rw [this, ← balSeq_shift]

lemma remainingLoop_zero_of_reach (r K : ℚ) : ∀ (m : ℕ) (bal : ℚ) (j : ℕ),
    1 ≤ j → j ≤ m →
    (∀ i < j, balSeq r K bal i * r < K) →
    balSeq r K bal j ≤ 0 →
    remainingLoop r K m bal = 0
  | 0, bal, j => by intro h1 h2 _ _; omega
  | m + 1, bal, j => by
    intro h1 hjm hnb hz
    obtain ⟨j', rfl⟩ : ∃ j', j = j' + 1 := ⟨j - 1, by omega⟩
    have hbr : ¬ (K ≤ bal * r) := not_le.mpr (hnb 0 (Nat.succ_pos j'))
    simp only [remainingLoop]
    rw [if_neg hbr]
    by_cases hb1 : bal * (1 + r) - K ≤ 0
    · rw [if_pos hb1]
    · rw [if_neg hb1]
      have hj'pos : 1 ≤ j' := by
        rcases Nat.eq_zero_or_pos j' with h | h
        · subst h
          have : balSeq r K bal 1 ≤ 0 := hz
          rw [balSeq_shift] at this
          exact absurd this hb1
        · exact h
      exact remainingLoop_zero_of_reach r K m (bal * (1 + r) - K) j' hj'pos (by omega)
        (fun i hi => by rw [← balSeq_shift]; exact hnb (i + 1) (by omega))
        (by rw [← balSeq_shift]; exact hz)

lemma remainingLoop_run (r K : ℚ) : ∀ (m : ℕ) (bal : ℚ),
    (∀ i < m, balSeq r K bal i * r < K ∧ 0 < balSeq r K bal (i + 1)) →
    remainingLoop r K m bal = max (balSeq r K bal m) 0
  | 0, bal => by intro _; rfl
  | m + 1, bal => by
    intro hrun
    obtain ⟨hbr, hpos⟩ := hrun 0 (Nat.succ_pos m)
    have hbr' : ¬ (K ≤ bal * r) := not_le.mpr hbr
    simp only [remainingLoop]
    rw [if_neg hbr']
    have hb1 : ¬ (bal * (1 + r) - K ≤ 0) := by
      have := hpos; rw [balSeq_shift] at this; exact not_le.mpr this
    rw [if_neg hb1]
    have := remainingLoop_run r K m (bal * (1 + r) - K)
      (fun i hi => by
        constructor
        · rw [← balSeq_shift]; exact (hrun (i + 1) (by omega)).1
        · rw [← balSeq_shift]; exact (hrun (i + 1) (by omega)).2)
    rw [this, ← balSeq_shift]

/-! ## Behaviour at zero interest rate with a small payment: the iteration cap -/

lemma payoffLoop_zero_rate_cap : ∀ (fuel m : ℕ) (bal : ℚ), m + fuel = 1000 →
    (fuel : ℚ) / 2 < bal → payoffLoop 0 (1/2) fuel bal m = 1000
  | 0, m, bal => by
    intro hm _
    simp only [payoffLoop]
    omega
  | fuel + 1, m, bal => by
    intro hm hb
    have h1 : 0 < bal := by
      have : (0:ℚ) ≤ (fuel + 1 : ℕ) / 2 := by positivity
      linarith
    have h2 : m < 1000 := by omega
    have hc : 0 < bal ∧ m < 1000 := ⟨h1, h2⟩
    simp only [payoffLoop, if_pos hc]
    apply payoffLoop_zero_rate_cap fuel (m + 1) (bal * (1 + 0) - 1/2) (by omega)
    push_cast at hb ⊢
    linarith

lemma remainingLoop_zero_rate : ∀ (m : ℕ) (bal : ℚ), (m : ℚ) / 2 < bal →
    remainingLoop 0 (1/2) m bal = bal - m / 2
  | 0, bal => by
    intro h
    have h0 : 0 < bal := by
      have : ((0:ℕ) : ℚ) / 2 = 0 := by norm_num
      linarith [h, this.symm.le]
    simp only [remainingLoop, Nat.cast_zero]
    rw [max_eq_left h0.le]
    ring
  | m + 1, bal => by
    intro h
    have hbr : ¬ ((1:ℚ)/2 ≤ bal * 0) := by norm_num
    have hm2 : (m : ℚ) / 2 < bal * (1 + 0) - 1/2 := by push_cast at h ⊢; linarith
    have hpos : ¬ (bal * (1 + 0) - 1/2 ≤ 0) := by
      have : (0:ℚ) ≤ (m : ℚ) / 2 := by positivity
      push_cast at hm2
      intro hc
      linarith
    simp only [remainingLoop]
    rw [if_neg hbr, if_neg hpos, remainingLoop_zero_rate m (bal * (1 + 0) - 1/2) hm2]
    push_cast
    ring

lemma monthlyRate_zero : monthlyRate 0 = 0 := by norm_num [monthlyRate]

/-! ## Claim theorems: the amortization engine -/

/-- C8: for every `P`, `R`, `K` with `K ≤ P*R/1200`, `calculate_payoff_months`
returns the `UNREACHABLE` sentinel `none`, by the analytic guard before the loop. -/
theorem payoff_unreachable_analytic (P R K : ℚ) (h : K ≤ P * R / 1200) :
    calculate_payoff_months P R K = none := by
  have h' : K ≤ P * monthlyRate R := by rw [mul_monthlyRate]; exact h
  simp [calculate_payoff_months, if_pos h']

/-- Witness for C8 at `P = 100`, `R = 12`, `K = 1`. -/
theorem payoff_unreachable_analytic_witness :
    (1 : ℚ) ≤ 100 * 12 / 1200 ∧ calculate_payoff_months 100 12 1 = none :=
  ⟨by norm_num, payoff_unreachable_analytic 100 12 1 (by norm_num)⟩

/-- C9: `future_value` computes the closed form
`A*(1+r)^m + c*(((1+r)^m - 1)/r)` with `r = R/100/12` whenever `R ≠ 0`
(equivalently `r ≠ 0`), the degenerate form `A + c*m` when `R = 0`, and in
particular `future_value A 0 0 m = A`. -/
theorem future_value_closed_form (A c R : ℚ) (m : ℕ) :
    (R ≠ 0 → future_value A c R m
      = A * (1 + R / 100 / 12) ^ m + c * (((1 + R / 100 / 12) ^ m - 1) / (R / 100 / 12))) ∧
    (R = 0 → future_value A c R m = A + c * m) ∧
    future_value A 0 0 m = A := by
  refine ⟨fun hR => ?_, fun hR => ?_, ?_⟩
  · have hr : monthlyRate R ≠ 0 := by
      rw [monthlyRate_eq]
      exact div_ne_zero hR (by norm_num)
    have hr' : R / 100 / 12 ≠ 0 := hr
    simp only [future_value, monthlyRate]
    rw [if_pos hr']
  · subst hR
    simp [future_value, monthlyRate_zero]
  · simp [future_value, monthlyRate_zero]

/-- Witness for C9: the spec's numeric example `future_value 1000 0 12 12`
matches the closed form at monthly rate `1%`, and `future_value 7 0 0 5 = 7`. -/
theorem future_value_closed_form_witness :
    future_value 1000 0 12 12
      = 1000 * (1 + 12 / 100 / 12) ^ 12 + 0 * (((1 + 12 / 100 / 12) ^ 12 - 1) / (12 / 100 / 12)) ∧
    future_value 7 0 0 5 = 7 :=
  ⟨(future_value_closed_form 1000 0 12 12).1 (by norm_num),
   (future_value_closed_form 7 0 0 5).2.2⟩

/-- C7: `remaining_balance` is always `≥ 0`; it returns exactly `0` whenever the
simulated balance path (no earlier break) reaches `≤ 0` at some period `j` within
the horizon; and if at period `j` the payment no longer exceeds the accruing
interest (the loop having neither broken nor retired the debt earlier), the
then-current balance clamped to `≥ 0` is returned for every horizon `m ≥ j`. -/
theorem remaining_balance_props (P R K : ℚ) (m : ℕ) :
    0 ≤ remaining_balance P R K m ∧
    (∀ j, 1 ≤ j → j ≤ m →
      (∀ i < j, balSeq (monthlyRate R) K P i * monthlyRate R < K) →
      balSeq (monthlyRate R) K P j ≤ 0 →
      remaining_balance P R K m = 0) ∧
    (∀ j, j ≤ m →
      (∀ i < j, balSeq (monthlyRate R) K P i * monthlyRate R < K ∧
        0 < balSeq (monthlyRate R) K P (i + 1)) →
      K ≤ balSeq (monthlyRate R) K P j * monthlyRate R →
      remaining_balance P R K m = max (balSeq (monthlyRate R) K P j) 0) := by
  refine ⟨remainingLoop_nonneg _ _ _ _, fun j h1 hjm hnb hz => ?_, fun j hjm hrun hstop => ?_⟩
  · exact remainingLoop_zero_of_reach (monthlyRate R) K m P j h1 hjm hnb hz
  · exact remainingLoop_stuck (monthlyRate R) K j m P hjm hrun hstop

/-- Witness for C7: with `P = 100`, `R = 0`, `K = 50` the balance path is
`100, 50, 0`, so horizon `3` returns `0`; with `P = 100`, `R = 1200` (monthly
rate `1`), `K = 40` the loop breaks at once and returns the clamped starting
balance `100` for horizon `5`. -/
theorem remaining_balance_props_witness :
    remaining_balance 100 0 50 3 = 0 ∧ remaining_balance 100 1200 40 5 = 100 := by
  constructor
  · refine (remaining_balance_props 100 0 50 3).2.1 2 (by norm_num) (by norm_num)
      (fun i hi => ?_) (by norm_num [balSeq, monthlyRate])
    interval_cases i <;> norm_num [balSeq, monthlyRate]
  · have h := (remaining_balance_props 100 1200 40 5).2.2 0 (by norm_num)
      (fun i hi => absurd hi (by omega)) (by norm_num [balSeq, monthlyRate])
    rw [h]
    norm_num [balSeq]

/-- C3 (amended): for `P > 0`, `R ≥ 0`, `K > P*R/1200`, *provided the simulated
balance reaches `≤ 0` within the 1000-iteration ceiling* (at the first such
period `j`), `calculate_payoff_months` returns that finite `j ≥ 1`, and
`remaining_balance` is `0` at horizon `j` and strictly positive at `j - 1`.
The proviso is forced: the source returns the cap value `1000` instead of a
correct answer when the payoff needs more than 1000 months. -/
theorem payoff_months_correct (P R K : ℚ) (j : ℕ)
    (hP : 0 < P) (hR : 0 ≤ R) (hK : P * R / 1200 < K) (hj : j ≤ 1000)
    (h0 : ∀ i < j, 0 < balSeq (monthlyRate R) K P i)
    (hz : balSeq (monthlyRate R) K P j ≤ 0) :
    calculate_payoff_months P R K = some j ∧ 1 ≤ j ∧
      remaining_balance P R K j = 0 ∧ 0 < remaining_balance P R K (j - 1) := by
  have hr : 0 ≤ monthlyRate R := monthlyRate_nonneg hR
  have hK' : P * monthlyRate R < K := by rw [mul_monthlyRate]; exact hK
  have hnb : ∀ i, balSeq (monthlyRate R) K P i * monthlyRate R < K :=
    balSeq_no_break (monthlyRate R) K P hr hK'
  have hj1 : 1 ≤ j := by
    by_contra h
    have hj0 : j = 0 := by omega
    subst hj0
    exact absurd hz (not_le.mpr hP)
  refine ⟨calculate_payoff_eq P R K j hK' hj h0 hz, hj1, ?_, ?_⟩
  · exact remainingLoop_zero_of_reach (monthlyRate R) K j P j hj1 le_rfl
      (fun i _ => hnb i) hz
  · have hrun := remainingLoop_run (monthlyRate R) K (j - 1) P
      (fun i hi => ⟨hnb i, h0 (i + 1) (by omega)⟩)
    have hpos : 0 < balSeq (monthlyRate R) K P (j - 1) := h0 (j - 1) (by omega)
    unfold remaining_balance
    rw [hrun, max_eq_left hpos.le]
    exact hpos

/-- Witness for C3 at `P = 10`, `R = 0`, `K = 5`: the balance path is
`10, 5, 0`, so the payoff month is `2`. -/
theorem payoff_months_correct_witness :
    calculate_payoff_months 10 0 5 = some 2 ∧ 1 ≤ 2 ∧
      remaining_balance 10 0 5 2 = 0 ∧ 0 < remaining_balance 10 0 5 1 := by
  refine payoff_months_correct 10 0 5 2 (by norm_num) le_rfl (by norm_num) (by norm_num)
    (fun i hi => ?_) (by norm_num [balSeq, monthlyRate])
  interval_cases i <;> norm_num [balSeq, monthlyRate]

/-- C3 counterexample: at `P = 1000`, `R = 0`, `K = 1/2` all hypotheses of the
claim hold (`K > P*R/1200 = 0`), yet the function returns the cap value
`1000` and the remaining balance after those 1000 months is `500 ≠ 0`: the
claimed identity `remaining_balance P R K n = 0` fails for the returned `n`. -/
theorem payoff_months_claim_fails :
    0 < (1000 : ℚ) ∧ (1000 : ℚ) * 0 / 1200 < 1/2 ∧
      calculate_payoff_months 1000 0 (1/2) = some 1000 ∧
      remaining_balance 1000 0 (1/2) 1000 ≠ 0 := by
  refine ⟨by norm_num, by norm_num, ?_, ?_⟩
  · have hguard : ¬ ((1:ℚ)/2 ≤ 1000 * monthlyRate 0) := by
      rw [monthlyRate_zero]; norm_num
    have hloop := payoffLoop_zero_rate_cap 1000 0 1000 (by omega) (by norm_num)
    simp only [calculate_payoff_months, if_neg hguard, Option.some.injEq]
    rw [monthlyRate_zero]
    exact hloop
  · have h := remainingLoop_zero_rate 1000 1000 (by norm_num)
    unfold remaining_balance
    rw [monthlyRate_zero, h]
    norm_num

/-- C2: code-bug evidence.  At `amount = 1000`, `rate = 0`, `payment = 1/2`
the analytic check passes (`1/2 > 1000 * 0`), the loop runs to the 1000-month
ceiling with the balance still positive, and the function returns the finite
count `1000` — not the `UNREACHABLE` sentinel `None` the spec requires — while
`remaining_balance` still reports `500` owed after those 1000 months. -/
theorem payoff_cap_returns_finite :
    calculate_payoff_months 1000 0 (1/2) = some 1000 ∧
      remaining_balance 1000 0 (1/2) 1000 = 500 := by
  constructor
  · have hguard : ¬ ((1:ℚ)/2 ≤ 1000 * monthlyRate 0) := by
      rw [monthlyRate_zero]; norm_num
    have hloop := payoffLoop_zero_rate_cap 1000 0 1000 (by omega) (by norm_num)
    simp only [calculate_payoff_months, if_neg hguard, Option.some.injEq]
    rw [monthlyRate_zero]
    exact hloop
  · have h := remainingLoop_zero_rate 1000 1000 (by norm_num)
    unfold remaining_balance
    rw [monthlyRate_zero, h]
    norm_num

/-! ## List helper lemmas for the allocation block -/

lemma getD_set_self (l : List ℚ) (i : ℕ) (a : ℚ) (h : i < l.length) :
    (l.set i a).getD i 0 = a := by
  simp [List.getD, List.getElem?_set_self', h]

lemma getD_set_ne (l : List ℚ) {i j : ℕ} (a : ℚ) (h : i ≠ j) :
    (l.set i a).getD j 0 = l.getD j 0 := by
  simp [List.getD, List.getElem?_set_ne h]

lemma getD_replicate_zero (n j : ℕ) : (List.replicate n (0:ℚ)).getD j 0 = 0 := by
  rcases lt_or_ge j n with h | h
  · rw [List.getD_eq_getElem _ _ (by simpa using h)]
    simp
  · exact List.getD_eq_default _ _ (by simpa using h)

lemma length_foldl_set (v : ℕ → ℚ) : ∀ (l : List ℕ) (p0 : List ℚ),
    (l.foldl (fun pays i => pays.set i (v i)) p0).length = p0.length
  | [], _ => rfl
  | i :: l, p0 => by
    simp only [List.foldl_cons]
    rw [length_foldl_set v l]
    exact List.length_set p0 i (v i)

lemma foldl_set_getD (v : ℕ → ℚ) : ∀ (l : List ℕ) (p0 : List ℚ), l.Nodup →
    (∀ i ∈ l, i < p0.length) → ∀ j,
    (l.foldl (fun pays i => pays.set i (v i)) p0).getD j 0 =
      if j ∈ l then v j else p0.getD j 0
  | [], p0, _, _, j => by simp
  | i :: l, p0, hnd, hlt, j => by
    simp only [List.foldl_cons]
    have hnd' := hnd.of_cons
    have hi : i ∉ l := (List.nodup_cons.mp hnd).1
    rw [foldl_set_getD v l (p0.set i (v i)) hnd'
      (fun k hk => by rw [List.length_set]; exact hlt k (List.mem_cons_of_mem i hk)) j]
    by_cases hjl : j ∈ l
    · simp [hjl, List.mem_cons_of_mem i hjl]
    · by_cases hji : j = i
      · subst hji
        rw [if_neg hjl, if_pos (List.mem_cons_self j l)]
        exact getD_set_self p0 j (v j) (hlt j (List.mem_cons_self j l))
      · rw [if_neg hjl, getD_set_ne p0 (v i) (fun h => hji h.symm),
          if_neg (by simp [hjl, hji])]

lemma sum_eq_sum_range : ∀ l : List ℚ,
    ((List.range l.length).map (fun i => l.getD i 0)).sum = l.sum
  | [] => rfl
  | x :: xs => by
    simp only [List.length_cons, List.range_succ_eq_map, List.map_cons, List.map_map,
      List.sum_cons, List.getD_cons_zero]
    have : ((List.range xs.length).map ((fun i => (x :: xs).getD i 0) ∘ Nat.succ)) =
        (List.range xs.length).map (fun i => xs.getD i 0) :=
      List.map_congr_left (fun i _ => by simp [List.getD_cons_succ])
    rw [this, sum_eq_sum_range xs]

lemma sum_map_ite_filter (p : ℕ → Bool) (v : ℕ → ℚ) : ∀ l : List ℕ,
    (l.map (fun i => if p i then v i else 0)).sum = ((l.filter p).map v).sum
  | [] => rfl
  | i :: l => by
    simp only [List.map_cons, List.sum_cons, List.filter_cons]
    cases hp : p i
    · simp [hp, sum_map_ite_filter p v l]
    · simp [hp, sum_map_ite_filter p v l]

lemma sum_map_mul_const (v : ℕ → ℚ) (c : ℚ) : ∀ l : List ℕ,
    (l.map (fun i => v i * c)).sum = (l.map v).sum * c
  | [] => by simp
  | i :: l => by
    simp only [List.map_cons, List.sum_cons, sum_map_mul_const v c l]
    ring

lemma mem_activeIndices {balances : List ℚ} {i : ℕ} :
    i ∈ activeIndices balances ↔ i < balances.length ∧ 0 < balances.getD i 0 := by
  simp [activeIndices, List.mem_filter, List.mem_range]

lemma activeIndices_nodup (balances : List ℚ) : (activeIndices balances).Nodup :=
  (List.nodup_range _).filter _

lemma activeIndices_lt {balances : List ℚ} : ∀ i ∈ activeIndices balances, i < balances.length :=
  fun _ hi => (mem_activeIndices.mp hi).1

lemma activeIndices_pos {balances : List ℚ} : ∀ i ∈ activeIndices balances,
    0 < balances.getD i 0 :=
  fun _ hi => (mem_activeIndices.mp hi).2

lemma totalMin_pos_of_lt {debts : List Debt} {balances : List ℚ} {pool : ℚ}
    (hpool : 0 ≤ pool) (hlt : pool < totalMin debts balances) :
    ¬ (activeIndices balances).isEmpty := by
  intro h
  rw [List.isEmpty_iff] at h
  rw [totalMin, h] at hlt
  simp at hlt
  linarith

/-! ## Claim C5: pro-rata scaling when the pool is short of the minimums -/

/-- C5: when the debt pool is strictly below the sum of active minimum
payments, every active debt `i` is paid `minimum[i] * (pool / total_minimum)`
(inactive debts are paid `0`), and the payments sum exactly to the pool. -/
theorem allocation_prorata (debts : List Debt) (balances : List ℚ) (pool : ℚ)
    (hpool : 0 ≤ pool) (hlt : pool < totalMin debts balances) :
    computePayments debts balances pool =
      (List.range balances.length).map (fun i =>
        if 0 < balances.getD i 0 then minOf debts i * (pool / totalMin debts balances)
        else 0) ∧
    (computePayments debts balances pool).sum = pool := by
  have hne := totalMin_pos_of_lt hpool hlt
  have hT : 0 < totalMin debts balances := lt_of_le_of_lt hpool hlt
  have hcp : computePayments debts balances pool =
      (activeIndices balances).foldl
        (fun pays i => pays.set i (minOf debts i * (pool / totalMin debts balances)))
        (List.replicate balances.length (0:ℚ)) := by
    simp only [computePayments]
    rw [if_neg hne, if_pos hlt]
  have hgetD : ∀ j, (computePayments debts balances pool).getD j 0 =
      if j ∈ activeIndices balances
      then minOf debts j * (pool / totalMin debts balances)
      else (List.replicate balances.length (0:ℚ)).getD j 0 := by
    intro j
    rw [hcp]
    exact foldl_set_getD _ (activeIndices balances) _ (activeIndices_nodup balances)
      (fun i hi => by rw [List.length_replicate]; exact activeIndices_lt i hi) j
  have hlen : (computePayments debts balances pool).length = balances.length := by
    rw [hcp, length_foldl_set, List.length_replicate]
  constructor
  · have hlen2 : ((List.range balances.length).map (fun i =>
        if 0 < balances.getD i 0 then minOf debts i * (pool / totalMin debts balances)
        else 0)).length = balances.length := by
      simp
    apply List.ext_getElem (hlen.trans hlen2.symm)
    intro j h1 h2
    have hj : j < balances.length := by rwa [hlen] at h1
    rw [← List.getD_eq_getElem _ 0 h1, ← List.getD_eq_getElem _ 0 h2, hgetD j]
    have : ((List.range balances.length).map (fun i =>
        if 0 < balances.getD i 0 then minOf debts i * (pool / totalMin debts balances)
        else 0)).getD j 0 =
        (if 0 < balances.getD j 0 then minOf debts j * (pool / totalMin debts balances)
        else 0) := by
      rw [List.getD_eq_getElem _ 0 h2]
      simp
    rw [this, getD_replicate_zero]
    by_cases hact : 0 < balances.getD j 0
    · rw [if_pos hact, if_pos (mem_activeIndices.mpr ⟨hj, hact⟩)]
    · rw [if_neg hact, if_neg (fun hmem => hact (mem_activeIndices.mp hmem).2)]
  · have h1 : (computePayments debts balances pool).sum =
        ((List.range balances.length).map
          (fun i => (computePayments debts balances pool).getD i 0)).sum := by
      conv_lhs => rw [← sum_eq_sum_range (computePayments debts balances pool)]
      rw [hlen]
    rw [h1]
    have h2 : ((List.range balances.length).map
        (fun i => (computePayments debts balances pool).getD i 0)).sum =
        ((List.range balances.length).map (fun i =>
          if (decide (0 < balances.getD i 0)) then
            minOf debts i * (pool / totalMin debts balances) else 0)).sum := by
      apply congrArg
      apply List.map_congr_left
      intro i hi
      rw [hgetD i, getD_replicate_zero]
      by_cases hact : 0 < balances.getD i 0
      · rw [if_pos (mem_activeIndices.mpr ⟨List.mem_range.mp hi, hact⟩),
          if_pos (by simpa using hact)]
      · rw [if_neg (fun hmem => hact (mem_activeIndices.mp hmem).2),
          if_neg (by simpa using hact)]
    rw [h2, sum_map_ite_filter]
    have h3 : (List.range balances.length).filter
        (fun i => decide (0 < balances.getD i 0)) = activeIndices balances := rfl
    rw [h3, sum_map_mul_const]
    have h4 : ((activeIndices balances).map (fun i => minOf debts i)).sum
        = totalMin debts balances := rfl
    rw [h4]
    field_simp

/-- Witness for C5: two active debts with minimums `50` and `30` and pool `40`
scale to payments `(25, 15)`, summing to the pool. -/
theorem allocation_prorata_witness :
    computePayments [⟨100, 10, 50⟩, ⟨200, 5, 30⟩] [100, 200] 40 =
      (List.range 2).map (fun i =>
        if 0 < ([100, 200] : List ℚ).getD i 0
        then minOf [⟨100, 10, 50⟩, ⟨200, 5, 30⟩] i *
          (40 / totalMin [⟨100, 10, 50⟩, ⟨200, 5, 30⟩] [100, 200])
        else 0) ∧
    (computePayments [⟨100, 10, 50⟩, ⟨200, 5, 30⟩] [100, 200] 40).sum = 40 :=
  allocation_prorata [⟨100, 10, 50⟩, ⟨200, 5, 30⟩] [100, 200] 40 (by norm_num)
    (by norm_num [totalMin, activeIndices, minOf, List.getD, List.range_succ,
      List.filter_cons])

/-! ## Claim C4: the avalanche branch refines the spec's description -/

lemma set_getD_self_list : ∀ (l : List ℚ) (i : ℕ), l.set i (l.getD i 0) = l
  | [], _ => rfl
  | x :: xs, 0 => by simp [List.getD_cons_zero]
  | x :: xs, i + 1 => by
    show x :: xs.set i ((x :: xs).getD (i + 1) 0) = x :: xs
    rw [List.getD_cons_succ]
    exact congrArg _ (set_getD_self_list xs i)

lemma specGive_zero_extra (debts : List Debt) (balances : List ℚ) :
    ∀ (L : List ℕ) (pays : List ℚ), specGive debts balances L pays 0 = (pays, 0)
  | [], _ => rfl
  | i :: rest, pays => by
    simp only [specGive]
    rw [min_eq_left (le_max_right _ _), add_zero, set_getD_self_list, sub_zero]
    exact specGive_zero_extra debts balances rest pays

/-- The source's `extra <= 0` break never changes the outcome when the
remainder starts non-negative. -/
lemma allocExtra_eq_specGive (debts : List Debt) (balances : List ℚ) :
    ∀ (L : List ℕ) (pays : List ℚ) (extra : ℚ), 0 ≤ extra →
      allocExtra debts balances L pays extra = specGive debts balances L pays extra
  | [], _, _ => fun _ => rfl
  | i :: rest, pays, extra => by
    intro hext
    by_cases h0 : extra ≤ 0
    · have hz : extra = 0 := le_antisymm h0 hext
      subst hz
      simp only [allocExtra, if_pos le_rfl]
      exact (specGive_zero_extra debts balances (i :: rest) pays).symm
    · simp only [allocExtra, specGive, if_neg h0]
      exact allocExtra_eq_specGive debts balances rest _ _
        (by simp only [sub_nonneg]; exact min_le_left _ _)

lemma getD_set_general (l : List ℚ) (i j : ℕ) (a : ℚ) :
    (l.set i a).getD j 0 = if i = j ∧ i < l.length then a else l.getD j 0 := by
  by_cases hij : i = j
  · subst hij
    by_cases hl : i < l.length
    · rw [getD_set_self l i a hl, if_pos ⟨rfl, hl⟩]
    · rw [List.set_eq_of_length_le (by omega), if_neg (by tauto)]
  · rw [getD_set_ne l a hij, if_neg (by tauto)]

lemma specGive_getD_notMem (debts : List Debt) (balances : List ℚ) :
    ∀ (L : List ℕ) (pays : List ℚ) (extra : ℚ) {j : ℕ}, j ∉ L →
      ((specGive debts balances L pays extra).1).getD j 0 = pays.getD j 0
  | [], _, _, _ => fun _ => rfl
  | i :: rest, pays, extra, j => by
    intro hj
    simp only [specGive]
    rw [specGive_getD_notMem debts balances rest _ _ (fun h => hj (List.mem_cons_of_mem i h))]
    exact getD_set_ne pays _ (fun h => hj (h ▸ List.mem_cons_self i rest))

lemma specGive_getD_mono (debts : List Debt) (balances : List ℚ) :
    ∀ (L : List ℕ) (pays : List ℚ) (extra : ℚ), 0 ≤ extra → ∀ j,
      pays.getD j 0 ≤ ((specGive debts balances L pays extra).1).getD j 0
  | [], _, _ => fun _ _ => le_rfl
  | i :: rest, pays, extra => by
    intro hext j
    simp only [specGive]
    have hgive : 0 ≤ min extra (max (balances.getD i 0 * (1 + mrateOf debts i)
        - pays.getD i 0) 0) := le_min hext (le_max_right _ _)
    refine le_trans ?_ (specGive_getD_mono debts balances rest _ _
      (by simp only [sub_nonneg]; exact min_le_left _ _) j)
    rw [getD_set_general]
    by_cases hc : i = j ∧ i < pays.length
    · rw [if_pos hc]
      rcases hc with ⟨rfl, _⟩
      linarith
    · rw [if_neg hc]

lemma specGive_getD_le (debts : List Debt) (balances : List ℚ) :
    ∀ (L : List ℕ) (pays : List ℚ) (extra : ℚ), L.Nodup → ∀ j ∈ L,
      ((specGive debts balances L pays extra).1).getD j 0 ≤
        max (balances.getD j 0 * (1 + mrateOf debts j)) (pays.getD j 0)
  | [], _, _ => by intro _ j hj; exact absurd hj (List.not_mem_nil j)
  | i :: rest, pays, extra => by
    intro hnd j hj
    have hi : i ∉ rest := (List.nodup_cons.mp hnd).1
    simp only [specGive]
    rcases List.mem_cons.mp hj with rfl | hjr
    · rw [specGive_getD_notMem debts balances rest _ _ hi]
      rw [getD_set_general]
      by_cases hc : j = j ∧ j < pays.length
      · rw [if_pos hc]
        have h1 : min extra (max (balances.getD j 0 * (1 + mrateOf debts j)
            - pays.getD j 0) 0) ≤ max (balances.getD j 0 * (1 + mrateOf debts j)
            - pays.getD j 0) 0 := min_le_right _ _
        have h2 : pays.getD j 0 + max (balances.getD j 0 * (1 + mrateOf debts j)
            - pays.getD j 0) 0 = max (balances.getD j 0 * (1 + mrateOf debts j))
            (pays.getD j 0) := by
          rcases le_total (pays.getD j 0) (balances.getD j 0 * (1 + mrateOf debts j)) with h | h
          · rw [max_eq_left (by linarith), max_eq_left h]; ring
          · rw [max_eq_right (by linarith), max_eq_right h]; ring
        linarith
      · rw [if_neg hc]
        exact le_max_right _ _
    · have hij : i ≠ j := fun h => hi (h ▸ hjr)
      have hrec := specGive_getD_le debts balances rest
        (pays.set i (pays.getD i 0 + min extra
          (max (balances.getD i 0 * (1 + mrateOf debts i) - pays.getD i 0) 0)))
        (extra - min extra
          (max (balances.getD i 0 * (1 + mrateOf debts i) - pays.getD i 0) 0))
        (List.nodup_cons.mp hnd).2 j hjr
      rwa [getD_set_ne pays _ hij] at hrec

lemma sortedActive_nodup (debts : List Debt) (balances : List ℚ) :
    (sortedActive debts balances).Nodup :=
  (activeIndices_nodup balances).perm (List.perm_insertionSort _ _).symm

lemma mem_sortedActive {debts : List Debt} {balances : List ℚ} {i : ℕ} :
    i ∈ sortedActive debts balances ↔ i ∈ activeIndices balances :=
  (List.perm_insertionSort _ _).mem_iff

/-- C4: when the pool covers the active minimums, the source's allocation
equals the spec's minimums-first, descending-rate greedy distribution
(`specAllocate`); moreover every active debt receives at least its minimum
payment, and no active debt is paid beyond `balance*(1+monthlyRate)`
(full monthly payoff) unless its own minimum already exceeds that. -/
theorem allocation_avalanche (debts : List Debt) (balances : List ℚ) (pool : ℚ)
    (hge : totalMin debts balances ≤ pool) :
    computePayments debts balances pool = specAllocate debts balances pool ∧
    (∀ i ∈ activeIndices balances,
      minOf debts i ≤ (computePayments debts balances pool).getD i 0) ∧
    (∀ i ∈ activeIndices balances,
      (computePayments debts balances pool).getD i 0 ≤
        max (balances.getD i 0 * (1 + mrateOf debts i)) (minOf debts i)) := by
  have hnotlt : ¬ (pool < totalMin debts balances) := not_lt.mpr hge
  have hext : 0 ≤ pool - totalMin debts balances := by linarith
  by_cases hemp : (activeIndices balances).isEmpty
  · have hact : activeIndices balances = [] := List.isEmpty_iff.mp hemp
    have hsrt : sortedActive debts balances = [] := by
      rw [sortedActive, hact]; rfl
    constructor
    · simp only [computePayments, specAllocate, hact, hsrt, List.foldl_nil, specGive]
      simp
    · rw [hact]
      exact ⟨fun i hi => absurd hi (List.not_mem_nil i),
        fun i hi => absurd hi (List.not_mem_nil i)⟩
  · have hcp : computePayments debts balances pool = specAllocate debts balances pool := by
      simp only [computePayments, specAllocate, if_neg hemp, if_neg hnotlt]
      rw [allocExtra_eq_specGive debts balances _ _ _ hext]
    have hpays1 : ∀ i ∈ activeIndices balances,
        ((activeIndices balances).foldl (fun pays i => pays.set i (minOf debts i))
          (List.replicate balances.length (0:ℚ))).getD i 0 = minOf debts i := by
      intro i hi
      rw [foldl_set_getD _ _ _ (activeIndices_nodup balances)
        (fun k hk => by rw [List.length_replicate]; exact activeIndices_lt k hk) i]
      rw [if_pos hi]
    refine ⟨hcp, fun i hi => ?_, fun i hi => ?_⟩
    · rw [hcp]
      simp only [specAllocate]
      refine le_trans (le_of_eq (hpays1 i hi).symm) ?_
      exact specGive_getD_mono debts balances _ _ _ hext i
    · rw [hcp]
      simp only [specAllocate]
      have hle := specGive_getD_le debts balances (sortedActive debts balances)
        ((activeIndices balances).foldl (fun pays i => pays.set i (minOf debts i))
          (List.replicate balances.length (0:ℚ)))
        (pool - totalMin debts balances) (sortedActive_nodup debts balances) i
        (mem_sortedActive.mpr hi)
      rwa [hpays1 i hi] at hle

/-- Witness for C4 at the spec's example: debts `(10%, balance 1000, min 50)`
and `(5%, balance 500, min 20)` with pool `100`. -/
theorem allocation_avalanche_witness :
    computePayments [⟨1000, 10, 50⟩, ⟨500, 5, 20⟩] [1000, 500] 100 =
      specAllocate [⟨1000, 10, 50⟩, ⟨500, 5, 20⟩] [1000, 500] 100 ∧
    (∀ i ∈ activeIndices ([1000, 500] : List ℚ),
      minOf [⟨1000, 10, 50⟩, ⟨500, 5, 20⟩] i ≤
        (computePayments [⟨1000, 10, 50⟩, ⟨500, 5, 20⟩] [1000, 500] 100).getD i 0) ∧
    (∀ i ∈ activeIndices ([1000, 500] : List ℚ),
      (computePayments [⟨1000, 10, 50⟩, ⟨500, 5, 20⟩] [1000, 500] 100).getD i 0 ≤
        max (([1000, 500] : List ℚ).getD i 0 *
          (1 + mrateOf [⟨1000, 10, 50⟩, ⟨500, 5, 20⟩] i))
          (minOf [⟨1000, 10, 50⟩, ⟨500, 5, 20⟩] i)) :=
  allocation_avalanche [⟨1000, 10, 50⟩, ⟨500, 5, 20⟩] [1000, 500] 100
    (by norm_num [totalMin, activeIndices, minOf, List.getD, List.range_succ,
      List.filter_cons])

/-! ## Claim C1: the month-0 row -/

/-- C1: code-bug evidence.  With a single debt of 1000 at rate 0, minimum
payment 100, budget 100 fully allocated to debt and horizon 0, the month-0
row of `simulate_finances` records a debt payment of `100` and a total debt
of `-900`: the full allocation step is applied already at month 0, so the
month-0 row is not the untouched starting snapshot the spec (and the app's
own "starting point" caption) describes. -/
theorem month0_row_applies_payment :
    ((simulate_finances [⟨1000, 0, 100⟩] [] 100 100 0 7).getD 0 default).month = 0 ∧
    ((simulate_finances [⟨1000, 0, 100⟩] [] 100 100 0 7).getD 0 default).debtPayments = 100 ∧
    ((simulate_finances [⟨1000, 0, 100⟩] [] 100 100 0 7).getD 0 default).totalDebt = -900 := by
  norm_num [simulate_finances, simLoop, simRow, computePayments, activeIndices, totalMin,
    minOf, mrateOf, rateOf, monthlyRate, sortedActive, allocExtra, updateBalances,
    List.getD, List.range_succ, List.filter_cons, List.insertionSort, List.orderedInsert,
    future_value]

/-! ## Claim C10: shape of the simulate_debt_payoffs result -/

lemma getD_map_range {α : Type} (f : ℕ → α) (d : α) (n j : ℕ) (h : j < n) :
    ((List.range n).map f).getD j d = f j := by
  rw [List.getD_eq_getElem _ _ (by simpa using h)]
  simp

lemma getD_map_range_oob {α : Type} (f : ℕ → α) (d : α) (n j : ℕ) (h : n ≤ j) :
    ((List.range n).map f).getD j d = d :=
  List.getD_eq_default _ _ (by simpa using h)

lemma getD_oob {α : Type} (l : List α) (d : α) {j : ℕ} (h : l.length ≤ j) :
    l.getD j d = d :=
  List.getD_eq_default _ _ h

lemma updateBalances_length (debts : List Debt) (balances payments : List ℚ) :
    (updateBalances debts balances payments).length = balances.length := by
  simp [updateBalances]

lemma updatePayoffs_length (debts : List Debt) (m : ℕ) (balances payments : List ℚ)
    (poffs : List (Option ℕ)) :
    (updatePayoffs debts m balances payments poffs).length = balances.length := by
  simp [updatePayoffs]

lemma getD_mem_or_default (l : List (Option ℕ)) (i : ℕ) :
    l.getD i none = none ∨ l.getD i none ∈ l := by
  rcases lt_or_ge i l.length with h | h
  · right
    rw [List.getD_eq_getElem _ _ h]
    exact List.getElem_mem h
  · left
    exact getD_oob l none h

lemma payoffSimLoop_inv (debts : List Debt) (alloc : ℚ) (maxM : ℕ) :
    ∀ (fuel m : ℕ) (bals : List ℚ) (poffs : List (Option ℕ)),
      m + fuel = maxM + 1 → 1 ≤ m →
      poffs.length = bals.length →
      (∀ e ∈ poffs, e = none ∨ ∃ k, e = some k ∧ 1 ≤ k ∧ k < m) →
      (∀ i, 0 < bals.getD i 0 → poffs.getD i none = none) →
      (payoffSimLoop debts alloc fuel m bals poffs).2.length = bals.length ∧
      (payoffSimLoop debts alloc fuel m bals poffs).1.length = bals.length ∧
      (∀ e ∈ (payoffSimLoop debts alloc fuel m bals poffs).2,
        e = none ∨ ∃ k, e = some k ∧ 1 ≤ k ∧ k ≤ maxM) ∧
      (∀ i, 0 < (payoffSimLoop debts alloc fuel m bals poffs).1.getD i 0 →
        (payoffSimLoop debts alloc fuel m bals poffs).2.getD i none = none)
  | 0, m, bals, poffs => by
    intro hm hm1 hlen hent hpos
    refine ⟨hlen, rfl, fun e he => ?_, hpos⟩
    rcases hent e he with h | ⟨k, hk, h1, h2⟩
    · exact Or.inl h
    · exact Or.inr ⟨k, hk, h1, by omega⟩
  | fuel + 1, m, bals, poffs => by
    intro hm hm1 hlen hent hpos
    by_cases hemp : (activeIndices bals).isEmpty
    · have hred : payoffSimLoop debts alloc (fuel + 1) m bals poffs = (bals, poffs) := by
        simp only [payoffSimLoop, if_pos hemp]
      rw [hred]
      refine ⟨hlen, rfl, fun e he => ?_, hpos⟩
      rcases hent e he with h | ⟨k, hk, h1, h2⟩
      · exact Or.inl h
      · exact Or.inr ⟨k, hk, h1, by omega⟩
    · simp only [payoffSimLoop, if_neg hemp]
      set pm := computePayments debts bals alloc with hpm
      have hlen' : (updatePayoffs debts m bals pm poffs).length =
          (updateBalances debts bals pm).length := by
        rw [updatePayoffs_length, updateBalances_length]
      have hent' : ∀ e ∈ updatePayoffs debts m bals pm poffs,
          e = none ∨ ∃ k, e = some k ∧ 1 ≤ k ∧ k < m + 1 := by
        intro e he
        rw [updatePayoffs] at he
        rcases List.mem_map.mp he with ⟨i, _, rfl⟩
        by_cases hb : 0 < bals.getD i 0
        · rw [if_pos hb]
          by_cases hnew : max (bals.getD i 0 * (1 + mrateOf debts i) - pm.getD i 0) 0 = 0
              ∧ poffs.getD i none = none
          · rw [if_pos hnew]
            exact Or.inr ⟨m, rfl, hm1, by omega⟩
          · rw [if_neg hnew]
            rcases getD_mem_or_default poffs i with h | h
            · exact Or.inl h
            · rcases hent _ h with h' | ⟨k, hk, h1, h2⟩
              · exact Or.inl h'
              · exact Or.inr ⟨k, hk, h1, by omega⟩
        · rw [if_neg hb]
          rcases getD_mem_or_default poffs i with h | h
          · exact Or.inl h
          · rcases hent _ h with h' | ⟨k, hk, h1, h2⟩
            · exact Or.inl h'
            · exact Or.inr ⟨k, hk, h1, by omega⟩
      have hpos' : ∀ i, 0 < (updateBalances debts bals pm).getD i 0 →
          (updatePayoffs debts m bals pm poffs).getD i none = none := by
        intro i hi
        rcases lt_or_ge i bals.length with hin | hout
        · rw [updateBalances, getD_map_range _ _ _ _ hin] at hi
          rw [updatePayoffs, getD_map_range _ _ _ _ hin]
          by_cases hb : 0 < bals.getD i 0
          · rw [if_pos hb] at hi ⊢
            have hnz : ¬ (max (bals.getD i 0 * (1 + mrateOf debts i) - pm.getD i 0) 0 = 0
                ∧ poffs.getD i none = none) := by
              rintro ⟨h0, _⟩
              rw [h0] at hi
              exact lt_irrefl 0 hi
            rw [if_neg hnz]
            exact hpos i hb
          · rw [if_neg hb] at hi
            exact absurd hi hb
        · rw [updateBalances, getD_map_range_oob _ _ _ _ hout] at hi
          exact absurd hi (lt_irrefl 0)
      have ih := payoffSimLoop_inv debts alloc maxM fuel (m + 1)
        (updateBalances debts bals pm) (updatePayoffs debts m bals pm poffs)
        (by omega) (by omega) hlen' hent' hpos'
      rw [updateBalances_length] at ih
      exact ih

/-- C10: `simulate_debt_payoffs` returns one entry per input debt; every entry
is either `none` (the `"N/A"` sentinel) or a month `k` with `1 ≤ k ≤ max_months`;
and any debt whose simulated balance is still positive after the `max_months`
loop is reported as the sentinel. -/
theorem simulate_debt_payoffs_shape (debts : List Debt) (alloc : ℚ) (maxM : ℕ) :
    (simulate_debt_payoffs debts alloc maxM).length = debts.length ∧
    (∀ e ∈ simulate_debt_payoffs debts alloc maxM,
      e = none ∨ ∃ k, e = some k ∧ 1 ≤ k ∧ k ≤ maxM) ∧
    (∀ i, 0 < ((payoffSimLoop debts alloc maxM 1 (debts.map (fun d => d.amountOwed))
        (List.replicate debts.length none)).1).getD i 0 →
      (simulate_debt_payoffs debts alloc maxM).getD i none = none) := by
  have hinv := payoffSimLoop_inv debts alloc maxM maxM 1
    (debts.map (fun d => d.amountOwed)) (List.replicate debts.length none)
    (by omega) le_rfl
    (by rw [List.length_replicate, List.length_map])
    (fun e he => Or.inl (List.eq_of_mem_replicate he))
    (fun i _ => by
      rcases lt_or_ge i debts.length with h | h
      · rw [List.getD_eq_getElem _ _ (by simpa using h)]
        simp
      · exact getD_oob _ none (by simpa using h))
  refine ⟨?_, hinv.2.2.1, hinv.2.2.2⟩
  rw [simulate_debt_payoffs, hinv.1, List.length_map]

/-- Witness for C10: debts `(10, 0%, min 10)` and `(10000, 0%, min 1)` with
pool `11` and a 3-month cap: two entries, each `none` or a month in `[1, 3]`. -/
theorem simulate_debt_payoffs_shape_witness :
    (simulate_debt_payoffs [⟨10, 0, 10⟩, ⟨10000, 0, 1⟩] 11 3).length = 2 ∧
    (∀ e ∈ simulate_debt_payoffs [⟨10, 0, 10⟩, ⟨10000, 0, 1⟩] 11 3,
      e = none ∨ ∃ k, e = some k ∧ 1 ≤ k ∧ k ≤ 3) := by
  have h := simulate_debt_payoffs_shape [⟨10, 0, 10⟩, ⟨10000, 0, 1⟩] 11 3
  exact ⟨by rw [h.1]; rfl, h.2.1⟩

/-! ## Claim C6: helpers -/

lemma rateOf_nonneg {debts : List Debt} (hrate : ∀ d ∈ debts, 0 ≤ d.interestRate) (i : ℕ) :
    0 ≤ rateOf debts i := by
  unfold rateOf
  rcases lt_or_ge i debts.length with h | h
  · rw [List.getD_eq_getElem _ _ h]
    exact hrate _ (List.getElem_mem h)
  · rw [List.getD_eq_default _ _ h]
    exact le_rfl

lemma minOf_nonneg {debts : List Debt} (hmin : ∀ d ∈ debts, 0 ≤ d.minimumPayment) (i : ℕ) :
    0 ≤ minOf debts i := by
  unfold minOf
  rcases lt_or_ge i debts.length with h | h
  · rw [List.getD_eq_getElem _ _ h]
    exact hmin _ (List.getElem_mem h)
  · rw [List.getD_eq_default _ _ h]
    exact le_rfl

lemma mrateOf_nonneg {debts : List Debt} (hrate : ∀ d ∈ debts, 0 ≤ d.interestRate) (i : ℕ) :
    0 ≤ mrateOf debts i :=
  monthlyRate_nonneg (rateOf_nonneg hrate i)

lemma totalMin_eq_range (debts : List Debt) (bals : List ℚ) :
    totalMin debts bals = ((List.range bals.length).map (fun i =>
      if decide (0 < bals.getD i 0) then minOf debts i else 0)).sum :=
  (sum_map_ite_filter _ _ _).symm

lemma totalMin_mono {debts : List Debt} (hmin : ∀ d ∈ debts, 0 ≤ d.minimumPayment)
    {x y : List ℚ} (hlen : x.length = y.length)
    (hxy : ∀ i, x.getD i 0 ≤ y.getD i 0) :
    totalMin debts x ≤ totalMin debts y := by
  rw [totalMin_eq_range, totalMin_eq_range, hlen]
  apply List.sum_le_sum
  intro i _
  by_cases hx : 0 < x.getD i 0
  · have hy : 0 < y.getD i 0 := lt_of_lt_of_le hx (hxy i)
    rw [decide_eq_true hx, decide_eq_true hy]
  · rw [decide_eq_false hx, if_neg Bool.false_ne_true]
    by_cases hy : 0 < y.getD i 0
    · rw [decide_eq_true hy, if_pos rfl]
      exact minOf_nonneg hmin i
    · rw [decide_eq_false hy, if_neg Bool.false_ne_true]

lemma computePayments_prorata_getD (debts : List Debt) (bal : List ℚ) (pool : ℚ)
    (hpool : 0 ≤ pool) (hlt : pool < totalMin debts bal) {i : ℕ}
    (hi : i ∈ activeIndices bal) :
    (computePayments debts bal pool).getD i 0 = minOf debts i * (pool / totalMin debts bal) := by
  have hne := totalMin_pos_of_lt hpool hlt
  simp only [computePayments]
  rw [if_neg hne, if_pos hlt]
  rw [foldl_set_getD _ _ _ (activeIndices_nodup bal)
    (fun k hk => by rw [List.length_replicate]; exact activeIndices_lt k hk) i]
  rw [if_pos hi]

lemma computePayments_pays1_getD (debts : List Debt) (bal : List ℚ) {i : ℕ}
    (hi : i ∈ activeIndices bal) :
    ((activeIndices bal).foldl (fun pays i => pays.set i (minOf debts i))
      (List.replicate bal.length (0:ℚ))).getD i 0 = minOf debts i := by
  rw [foldl_set_getD _ _ _ (activeIndices_nodup bal)
    (fun k hk => by rw [List.length_replicate]; exact activeIndices_lt k hk) i]
  rw [if_pos hi]

lemma computePayments_else_eq (debts : List Debt) (bal : List ℚ) (pool : ℚ)
    (hge : totalMin debts bal ≤ pool) (hne : ¬ (activeIndices bal).isEmpty) :
    computePayments debts bal pool =
      (specGive debts bal (sortedActive debts bal)
        ((activeIndices bal).foldl (fun pays i => pays.set i (minOf debts i))
          (List.replicate bal.length (0:ℚ)))
        (pool - totalMin debts bal)).1 := by
  simp only [computePayments]
  rw [if_neg hne, if_neg (not_lt.mpr hge),
    allocExtra_eq_specGive debts bal _ _ _ (by linarith)]

lemma computePayments_ge_min (debts : List Debt) (bal : List ℚ) (pool : ℚ)
    (hge : totalMin debts bal ≤ pool) {i : ℕ} (hi : i ∈ activeIndices bal) :
    minOf debts i ≤ (computePayments debts bal pool).getD i 0 := by
  have hne : ¬ (activeIndices bal).isEmpty := by
    intro h
    rw [List.isEmpty_iff] at h
    rw [h] at hi
    exact List.not_mem_nil i hi
  rw [computePayments_else_eq debts bal pool hge hne]
  refine le_trans (le_of_eq (computePayments_pays1_getD debts bal hi).symm) ?_
  exact specGive_getD_mono debts bal _ _ _ (by linarith) i

lemma sortedActive_sorted (debts : List Debt) (bal : List ℚ) :
    List.Sorted (rateOrder debts) (sortedActive debts bal) :=
  List.sorted_insertionSort _ _

/-- Stability: the active list of a pointwise-smaller balance vector sorts to
exactly the filtered sorted list of the larger one. -/
lemma sortedActive_filter (debts : List Debt) (x y : List ℚ)
    (hlen : x.length = y.length)
    (himp : ∀ i, 0 < x.getD i 0 → 0 < y.getD i 0) :
    sortedActive debts x =
      (sortedActive debts y).filter (fun j => decide (0 < x.getD j 0)) := by
  have hperm : List.Perm (sortedActive debts x)
      ((sortedActive debts y).filter (fun j => decide (0 < x.getD j 0))) := by
    have h1 : List.Perm (sortedActive debts x) (activeIndices x) :=
      List.perm_insertionSort _ _
    have h2 : List.Perm ((activeIndices y).filter (fun j => decide (0 < x.getD j 0)))
        ((sortedActive debts y).filter (fun j => decide (0 < x.getD j 0))) :=
      (List.perm_insertionSort _ _).symm.filter _
    have h3 : activeIndices x =
        (activeIndices y).filter (fun j => decide (0 < x.getD j 0)) := by
      unfold activeIndices
      rw [List.filter_filter, hlen]
      apply List.filter_congr
      intro i _
      by_cases hx : 0 < x.getD i 0
      · rw [decide_eq_true hx, decide_eq_true (himp i hx)]
        rfl
      · rw [decide_eq_false hx]
        rfl
    exact (h3 ▸ h1).trans h2
  exact List.eq_of_perm_of_sorted hperm (sortedActive_sorted debts x)
    ((sortedActive_sorted debts y).sublist (List.filter_sublist _))

lemma specGive_cons (debts : List Debt) (bals : List ℚ) (i : ℕ) (L : List ℕ)
    (pays : List ℚ) (e : ℚ) :
    specGive debts bals (i :: L) pays e =
      specGive debts bals L
        (pays.set i (pays.getD i 0 + min e
          (max (bals.getD i 0 * (1 + mrateOf debts i) - pays.getD i 0) 0)))
        (e - min e (max (bals.getD i 0 * (1 + mrateOf debts i) - pays.getD i 0) 0)) :=
  rfl

/-- The arithmetic core of one greedy step: with a cheaper balance `X ≤ Y`,
the same already-assigned amount `M`, and at least as much remaining extra
(`eB ≤ eA`), the post-payment clamped balance on the cheap side stays below
the expensive side's. -/
lemma give_arith (X Y M eA eB : ℚ) (hXY : X ≤ Y) (h0B : 0 ≤ eB) (hBA : eB ≤ eA) :
    X - (M + min eA (max (X - M) 0)) ≤ max (Y - (M + min eB (max (Y - M) 0))) 0 := by
  rcases le_total (max (X - M) 0) eA with hc | hc
  · rw [min_eq_right hc]
    have hle : X - (M + max (X - M) 0) ≤ 0 := by
      rcases le_total (X - M) 0 with h | h
      · rw [max_eq_right h]; linarith
      · rw [max_eq_left h]; linarith
    exact le_trans hle (le_max_right _ _)
  · rw [min_eq_left hc]
    refine le_trans ?_ (le_max_left _ _)
    have h1 : min eB (max (Y - M) 0) ≤ eB := min_le_left _ _
    linarith

/-- Walking the *same* descending-rate list, the poorer balance vector `x`
(processing only its own active sublist) always ends with a weakly smaller
post-payment balance at every index it still owes on, provided it starts
with at least as much extra. -/
lemma specGive_compare (debts : List Debt) (x y : List ℚ)
    (hrate : ∀ d ∈ debts, 0 ≤ d.interestRate)
    (hxy : ∀ i, 0 ≤ x.getD i 0 ∧ x.getD i 0 ≤ y.getD i 0) :
    ∀ (L : List ℕ) (paysA paysB : List ℚ) (eA eB : ℚ),
      L.Nodup → 0 ≤ eB → eB ≤ eA →
      paysA.length = y.length → paysB.length = y.length →
      (∀ i ∈ L, i < y.length) →
      (∀ i ∈ L, 0 < x.getD i 0 →
        paysA.getD i 0 = minOf debts i ∧ paysB.getD i 0 = minOf debts i) →
      ∀ j ∈ L, 0 < x.getD j 0 →
        x.getD j 0 * (1 + mrateOf debts j) -
          ((specGive debts x (L.filter (fun t => decide (0 < x.getD t 0))) paysA eA).1).getD j 0
        ≤ max (y.getD j 0 * (1 + mrateOf debts j) -
          ((specGive debts y L paysB eB).1).getD j 0) 0
  | [], paysA, paysB, eA, eB => by
    intro _ _ _ _ _ _ _ j hj _
    exact absurd hj (List.not_mem_nil j)
  | i :: rest, paysA, paysB, eA, eB => by
    intro hnd h0B hBA hlA hlB hmem hpin j hj hxj
    have hiR : i ∉ rest := (List.nodup_cons.mp hnd).1
    have hndR : rest.Nodup := (List.nodup_cons.mp hnd).2
    by_cases hpx : 0 < x.getD i 0
    · -- both sides process i
      have hfil : (i :: rest).filter (fun t => decide (0 < x.getD t 0)) =
          i :: rest.filter (fun t => decide (0 < x.getD t 0)) := by
        rw [List.filter_cons, if_pos (by rw [decide_eq_true hpx])]
      obtain ⟨hAi, hBi⟩ := hpin i (List.mem_cons_self i rest) hpx
      have hri : 0 ≤ mrateOf debts i := mrateOf_nonneg hrate i
      have hr1 : (0:ℚ) ≤ 1 + mrateOf debts i := by linarith
      have hcap : max (x.getD i 0 * (1 + mrateOf debts i) - paysA.getD i 0) 0 ≤
          max (y.getD i 0 * (1 + mrateOf debts i) - paysB.getD i 0) 0 := by
        apply max_le_max _ le_rfl
        have hmul := mul_le_mul_of_nonneg_right (hxy i).2 hr1
        rw [hAi, hBi]
        linarith
      have hgB0 : 0 ≤ min eB (max (y.getD i 0 * (1 + mrateOf debts i) - paysB.getD i 0) 0) :=
        le_min h0B (le_max_right _ _)
      have heB' : 0 ≤ eB - min eB
          (max (y.getD i 0 * (1 + mrateOf debts i) - paysB.getD i 0) 0) := by
        simp only [sub_nonneg]
        exact min_le_left _ _
      have heBA' : eB - min eB (max (y.getD i 0 * (1 + mrateOf debts i) - paysB.getD i 0) 0)
          ≤ eA - min eA (max (x.getD i 0 * (1 + mrateOf debts i) - paysA.getD i 0) 0) := by
        rcases le_total eA (max (x.getD i 0 * (1 + mrateOf debts i) - paysA.getD i 0) 0)
          with h | h
        · have hBcap : eB ≤ max (y.getD i 0 * (1 + mrateOf debts i) - paysB.getD i 0) 0 :=
            le_trans hBA (le_trans h hcap)
          rw [min_eq_left h, min_eq_left hBcap]
          linarith
        · rw [min_eq_right h]
          rcases le_total eB (max (y.getD i 0 * (1 + mrateOf debts i) - paysB.getD i 0) 0)
            with h2 | h2
          · rw [min_eq_left h2]
            linarith
          · rw [min_eq_right h2]
            linarith [hcap]
      rw [hfil, specGive_cons, specGive_cons]
      rcases List.mem_cons.mp hj with rfl | hjR
      · -- j = i: both payments settle now and never change again
        rw [specGive_getD_notMem debts x _ _ _
            (fun hc => hiR (List.mem_of_mem_filter hc)),
          specGive_getD_notMem debts y _ _ _ hiR]
        have hjlenA : j < paysA.length := by
          rw [hlA]; exact hmem j (List.mem_cons_self j rest)
        have hjlenB : j < paysB.length := by
          rw [hlB]; exact hmem j (List.mem_cons_self j rest)
        rw [getD_set_self paysA j _ hjlenA, getD_set_self paysB j _ hjlenB, hAi, hBi]
        exact give_arith _ _ _ eA eB
          (mul_le_mul_of_nonneg_right (hxy j).2 hr1) h0B hBA
      · -- j further down the list: recurse
        have := specGive_compare debts x y hrate hxy rest
          (paysA.set i (paysA.getD i 0 + min eA
            (max (x.getD i 0 * (1 + mrateOf debts i) - paysA.getD i 0) 0)))
          (paysB.set i (paysB.getD i 0 + min eB
            (max (y.getD i 0 * (1 + mrateOf debts i) - paysB.getD i 0) 0)))
          (eA - min eA (max (x.getD i 0 * (1 + mrateOf debts i) - paysA.getD i 0) 0))
          (eB - min eB (max (y.getD i 0 * (1 + mrateOf debts i) - paysB.getD i 0) 0))
          hndR heB' heBA'
          (by rw [List.length_set]; exact hlA)
          (by rw [List.length_set]; exact hlB)
          (fun t ht => hmem t (List.mem_cons_of_mem i ht))
          (fun t ht hxt => by
            have hit : i ≠ t := fun h => hiR (h ▸ ht)
            rw [getD_set_ne paysA _ hit, getD_set_ne paysB _ hit]
            exact hpin t (List.mem_cons_of_mem i ht) hxt)
          j hjR hxj
        exact this
    · -- i is inactive on the x side: only the y side processes it
      have hfil : (i :: rest).filter (fun t => decide (0 < x.getD t 0)) =
          rest.filter (fun t => decide (0 < x.getD t 0)) := by
        rw [List.filter_cons, if_neg (by rw [decide_eq_false hpx]; exact Bool.false_ne_true)]
      have hgB0 : 0 ≤ min eB (max (y.getD i 0 * (1 + mrateOf debts i) - paysB.getD i 0) 0) :=
        le_min h0B (le_max_right _ _)
      have heB' : 0 ≤ eB - min eB
          (max (y.getD i 0 * (1 + mrateOf debts i) - paysB.getD i 0) 0) := by
        simp only [sub_nonneg]
        exact min_le_left _ _
      have heBA' : eB - min eB (max (y.getD i 0 * (1 + mrateOf debts i) - paysB.getD i 0) 0)
          ≤ eA := by linarith
      have hjR : j ∈ rest := by
        rcases List.mem_cons.mp hj with rfl | h
        · exact absurd hxj hpx
        · exact h
      rw [hfil, specGive_cons]
      exact specGive_compare debts x y hrate hxy rest paysA
        (paysB.set i (paysB.getD i 0 + min eB
          (max (y.getD i 0 * (1 + mrateOf debts i) - paysB.getD i 0) 0)))
        eA
        (eB - min eB (max (y.getD i 0 * (1 + mrateOf debts i) - paysB.getD i 0) 0))
        hndR heB' heBA' hlA
        (by rw [List.length_set]; exact hlB)
        (fun t ht => hmem t (List.mem_cons_of_mem i ht))
        (fun t ht hxt => by
          have hit : i ≠ t := fun h => hiR (h ▸ ht)
          rw [getD_set_ne paysB _ hit]
          exact hpin t (List.mem_cons_of_mem i ht) hxt)
        j hjR hxj

lemma updateBalances_getD (debts : List Debt) (bals pays : List ℚ) {i : ℕ}
    (h : i < bals.length) :
    (updateBalances debts bals pays).getD i 0 =
      if 0 < bals.getD i 0
      then max (bals.getD i 0 * (1 + mrateOf debts i) - pays.getD i 0) 0
      else bals.getD i 0 := by
  rw [updateBalances, getD_map_range _ _ _ _ h]

/-- One simulated month preserves the pointwise order between the balance
vector run with the larger pool `a'` and the one run with the smaller pool
`a`, and keeps balances non-negative. -/
lemma updateStep_mono (debts : List Debt)
    (hrate : ∀ d ∈ debts, 0 ≤ d.interestRate)
    (hmin : ∀ d ∈ debts, 0 ≤ d.minimumPayment)
    (a a' : ℚ) (ha0 : 0 ≤ a) (haa : a ≤ a')
    (x y : List ℚ) (hlen : x.length = y.length)
    (hxy : ∀ i, 0 ≤ x.getD i 0 ∧ x.getD i 0 ≤ y.getD i 0) :
    ∀ i, 0 ≤ (updateBalances debts x (computePayments debts x a')).getD i 0 ∧
      (updateBalances debts x (computePayments debts x a')).getD i 0 ≤
      (updateBalances debts y (computePayments debts y a)).getD i 0 := by
  intro i
  rcases lt_or_ge i x.length with hin | hout
  · have hiny : i < y.length := hlen ▸ hin
    rw [updateBalances_getD debts x _ hin, updateBalances_getD debts y _ hiny]
    by_cases hx0 : 0 < x.getD i 0
    · have hy0 : 0 < y.getD i 0 := lt_of_lt_of_le hx0 (hxy i).2
      rw [if_pos hx0, if_pos hy0]
      have hr1 : (0:ℚ) ≤ 1 + mrateOf debts i := by linarith [mrateOf_nonneg hrate i]
      have hiactx : i ∈ activeIndices x := mem_activeIndices.mpr ⟨hin, hx0⟩
      have hiacty : i ∈ activeIndices y := mem_activeIndices.mpr ⟨hiny, hy0⟩
      have htm : totalMin debts x ≤ totalMin debts y :=
        totalMin_mono hmin hlen (fun t => (hxy t).2)
      have hQ : x.getD i 0 * (1 + mrateOf debts i) -
          (computePayments debts x a').getD i 0 ≤
          max (y.getD i 0 * (1 + mrateOf debts i) -
            (computePayments debts y a).getD i 0) 0 := by
        by_cases hBpro : a < totalMin debts y
        · -- smaller-pool side scales minimums pro rata
          have htmY : 0 < totalMin debts y := lt_of_le_of_lt ha0 hBpro
          have hpBle : (computePayments debts y a).getD i 0 ≤ minOf debts i := by
            rw [computePayments_prorata_getD debts y a ha0 hBpro hiacty]
            have hda : a / totalMin debts y ≤ 1 := by
              rw [div_le_one htmY]; linarith
            calc minOf debts i * (a / totalMin debts y) ≤ minOf debts i * 1 :=
                  mul_le_mul_of_nonneg_left hda (minOf_nonneg hmin i)
              _ = minOf debts i := mul_one _
          have hpp : (computePayments debts y a).getD i 0 ≤
              (computePayments debts x a').getD i 0 := by
            by_cases hApro : a' < totalMin debts x
            · have htmX : 0 < totalMin debts x := lt_of_le_of_lt (le_trans ha0 haa) hApro
              rw [computePayments_prorata_getD debts y a ha0 hBpro hiacty,
                  computePayments_prorata_getD debts x a' (le_trans ha0 haa) hApro hiactx]
              apply mul_le_mul_of_nonneg_left _ (minOf_nonneg hmin i)
              rw [div_le_div_iff₀ htmY htmX]
              have h1 : a * totalMin debts x ≤ a' * totalMin debts x :=
                mul_le_mul_of_nonneg_right haa (le_of_lt htmX)
              have h2 : a' * totalMin debts x ≤ a' * totalMin debts y :=
                mul_le_mul_of_nonneg_left htm (le_trans ha0 haa)
              linarith
            · exact le_trans hpBle
                (computePayments_ge_min debts x a' (not_lt.mp hApro) hiactx)
          have hmul := mul_le_mul_of_nonneg_right (hxy i).2 hr1
          refine le_trans ?_ (le_max_left _ _)
          linarith
        · -- both sides pay minimums first and distribute greedily
          have hBge : totalMin debts y ≤ a := not_lt.mp hBpro
          have hAge : totalMin debts x ≤ a' := le_trans htm (le_trans hBge haa)
          have hney : ¬ (activeIndices y).isEmpty := by
            intro h
            rw [List.isEmpty_iff] at h
            rw [h] at hiacty
            exact List.not_mem_nil i hiacty
          have hnex : ¬ (activeIndices x).isEmpty := by
            intro h
            rw [List.isEmpty_iff] at h
            rw [h] at hiactx
            exact List.not_mem_nil i hiactx
          rw [computePayments_else_eq debts x a' hAge hnex,
              computePayments_else_eq debts y a hBge hney,
              sortedActive_filter debts x y hlen (fun t ht => lt_of_lt_of_le ht (hxy t).2)]
          exact specGive_compare debts x y hrate hxy (sortedActive debts y)
            ((activeIndices x).foldl (fun pays t => pays.set t (minOf debts t))
              (List.replicate x.length (0:ℚ)))
            ((activeIndices y).foldl (fun pays t => pays.set t (minOf debts t))
              (List.replicate y.length (0:ℚ)))
            (a' - totalMin debts x) (a - totalMin debts y)
            (sortedActive_nodup debts y) (by linarith) (by linarith)
            (by rw [length_foldl_set, List.length_replicate, hlen])
            (by rw [length_foldl_set, List.length_replicate])
            (fun t ht => (mem_activeIndices.mp (mem_sortedActive.mp ht)).1)
            (fun t ht hxt => by
              have hty : t ∈ activeIndices y := mem_sortedActive.mp ht
              have htx : t ∈ activeIndices x :=
                mem_activeIndices.mpr ⟨hlen ▸ (mem_activeIndices.mp hty).1, hxt⟩
              exact ⟨computePayments_pays1_getD debts x htx,
                computePayments_pays1_getD debts y hty⟩)
            i (mem_sortedActive.mpr hiacty) hx0
      exact ⟨le_max_right _ _, max_le hQ (le_max_right _ _)⟩
    · rw [if_neg hx0]
      refine ⟨(hxy i).1, ?_⟩
      have hx00 : x.getD i 0 = 0 := le_antisymm (not_lt.mp hx0) (hxy i).1
      by_cases hy0 : 0 < y.getD i 0
      · rw [if_pos hy0, hx00]
        exact le_max_right _ _
      · rw [if_neg hy0]
        exact (hxy i).2
  · rw [updateBalances, getD_map_range_oob _ _ _ _ hout,
        updateBalances, getD_map_range_oob _ _ _ _ (hlen ▸ hout)]
    exact ⟨le_rfl, le_rfl⟩

lemma debtStateLoop_length (debts : List Debt) (alloc : ℚ) :
    ∀ (k : ℕ) (bals : List ℚ), (debtStateLoop debts alloc k bals).length = bals.length
  | 0, _ => rfl
  | k + 1, bals => by
    show (debtStateLoop debts alloc k _).length = _
    rw [debtStateLoop_length debts alloc k, updateBalances_length]

lemma debtStateLoop_mono (debts : List Debt)
    (hrate : ∀ d ∈ debts, 0 ≤ d.interestRate)
    (hmin : ∀ d ∈ debts, 0 ≤ d.minimumPayment)
    (a a' : ℚ) (ha0 : 0 ≤ a) (haa : a ≤ a') :
    ∀ (k : ℕ) (x y : List ℚ), x.length = y.length →
      (∀ i, 0 ≤ x.getD i 0 ∧ x.getD i 0 ≤ y.getD i 0) →
      ∀ i, 0 ≤ (debtStateLoop debts a' k x).getD i 0 ∧
        (debtStateLoop debts a' k x).getD i 0 ≤ (debtStateLoop debts a k y).getD i 0
  | 0, x, y => fun _ hxy => hxy
  | k + 1, x, y => by
    intro hlen hxy
    exact debtStateLoop_mono debts hrate hmin a a' ha0 haa k
      (updateBalances debts x (computePayments debts x a'))
      (updateBalances debts y (computePayments debts y a))
      (by rw [updateBalances_length, updateBalances_length, hlen])
      (updateStep_mono debts hrate hmin a a' ha0 haa x y hlen hxy)

lemma sum_le_of_getD_le (x y : List ℚ) (hlen : x.length = y.length)
    (h : ∀ i, x.getD i 0 ≤ y.getD i 0) : x.sum ≤ y.sum := by
  rw [← sum_eq_sum_range x, ← sum_eq_sum_range y, hlen]
  exact List.sum_le_sum (fun i _ => h i)

lemma simRow_totalDebt (debts : List Debt) (invs : List Investment)
    (b al dr : ℚ) (m : ℕ) (bals : List ℚ) (defBal : ℚ) :
    (simRow debts invs b al dr m bals defBal).1.totalDebt =
      -(updateBalances debts bals (computePayments debts bals al)).sum := rfl

lemma simRow_state (debts : List Debt) (invs : List Investment)
    (b al dr : ℚ) (m : ℕ) (bals : List ℚ) (defBal : ℚ) :
    (simRow debts invs b al dr m bals defBal).2.1 =
      updateBalances debts bals (computePayments debts bals al) := rfl

/-- Row `j` of the simulation reports as `Total Debt` the negated sum of the
debt balances after `j + 1` allocation/update months (month 0 included,
because the source applies the update already at `m = 0`). -/
lemma simLoop_totalDebt (debts : List Debt) (invs : List Investment) (b al dr : ℚ) :
    ∀ (fuel j m : ℕ) (bals : List ℚ) (defBal : ℚ), j < fuel →
      ((simLoop debts invs b al dr fuel m bals defBal).getD j default).totalDebt =
        -(debtStateLoop debts al (j + 1) bals).sum
  | 0, j, m, bals, defBal => by intro h; omega
  | fuel + 1, j, m, bals, defBal => by
    intro hj
    cases j with
    | zero =>
      show (simRow debts invs b al dr m bals defBal).1.totalDebt = _
      rw [simRow_totalDebt]
      rfl
    | succ j' =>
      show ((simLoop debts invs b al dr fuel (m + 1)
          (simRow debts invs b al dr m bals defBal).2.1
          (simRow debts invs b al dr m bals defBal).2.2).getD j' default).totalDebt = _
      rw [simLoop_totalDebt debts invs b al dr fuel j' (m + 1) _ _ (by omega),
        simRow_state]
      rfl

/-- C6: holding the debts, investments, budget and horizon fixed and assuming
the boundary-validated sign conditions on the inputs, a larger
`debt_allocation` never yields a larger outstanding total debt in any
reported row `m ≥ 1` (the row stores the negated total, so the comparison is
on the negation of the `Total Debt` field). -/
theorem total_debt_antitone_in_allocation
    (debts : List Debt) (invs : List Investment) (budget dret a a' : ℚ)
    (horizon m : ℕ)
    (hamt : ∀ d ∈ debts, 0 ≤ d.amountOwed)
    (hrate : ∀ d ∈ debts, 0 ≤ d.interestRate)
    (hmin : ∀ d ∈ debts, 0 ≤ d.minimumPayment)
    (ha0 : 0 ≤ a) (haa : a ≤ a') (hm : 1 ≤ m) (hmh : m ≤ horizon) :
    -(((simulate_finances debts invs budget a' horizon dret).getD m default).totalDebt)
      ≤ -(((simulate_finances debts invs budget a horizon dret).getD m default).totalDebt) := by
  rw [simulate_finances, simulate_finances,
    simLoop_totalDebt debts invs budget a' dret (horizon + 1) m 0 _ 0 (by omega),
    simLoop_totalDebt debts invs budget a dret (horizon + 1) m 0 _ 0 (by omega),
    neg_neg, neg_neg]
  have hxy0 : ∀ i, 0 ≤ (debts.map (fun d => d.amountOwed)).getD i 0 ∧
      (debts.map (fun d => d.amountOwed)).getD i 0 ≤
        (debts.map (fun d => d.amountOwed)).getD i 0 := by
    intro i
    refine ⟨?_, le_rfl⟩
    rcases lt_or_ge i (debts.map (fun d => d.amountOwed)).length with h | h
    · rw [List.getD_eq_getElem _ _ h, List.getElem_map]
      exact hamt _ (List.getElem_mem _)
    · rw [List.getD_eq_default _ _ h]
  have hmono := debtStateLoop_mono debts hrate hmin a a' ha0 haa (m + 1)
    (debts.map (fun d => d.amountOwed)) (debts.map (fun d => d.amountOwed)) rfl hxy0
  apply sum_le_of_getD_le
  · rw [debtStateLoop_length, debtStateLoop_length]
  · exact fun i => (hmono i).2

/-- Witness for C6: one debt of 100 at rate 0 with minimum 10; allocations
10 versus 20; at month 1 the larger allocation leaves less debt. -/
theorem total_debt_antitone_in_allocation_witness :
    -(((simulate_finances [⟨100, 0, 10⟩] [] 50 20 2 7).getD 1 default).totalDebt)
      ≤ -(((simulate_finances [⟨100, 0, 10⟩] [] 50 10 2 7).getD 1 default).totalDebt) :=
  total_debt_antitone_in_allocation [⟨100, 0, 10⟩] [] 50 7 10 20 2 1
    (by intro d hd; simp only [List.mem_singleton] at hd; subst hd; norm_num)
    (by intro d hd; simp only [List.mem_singleton] at hd; subst hd; norm_num)
    (by intro d hd; simp only [List.mem_singleton] at hd; subst hd; norm_num)
    (by norm_num) (by norm_num) le_rfl (by norm_num)
